import Mathlib

/-!
Verification of the Community Broadcast bot's broadcast core against its
specification.  The TypeScript source is shallowly embedded: the template
engine (`replaceVars`), URL-button parsing, the delivery loop of
`sendMessages`, the preview loop of `previewMessages`, the group cache
invalidation (`clearGroupCache`), the group hierarchy resolution
(`getAllGroupsUnderCategory`), the user-state merge (`setUserState`) and the
category assignment (`applyCategory`) are translated into executable Lean
definitions, and the specification's claims are proved or refuted about them.

JavaScript `String.prototype.replace` with a `/literal/gi` regex is modelled
as a left-to-right, non-overlapping, case-insensitive literal scan whose
replacement string is interpreted with ECMAScript dollar-escape semantics
(`dollarSub`): `$$`, `$&`, dollar-backtick and dollar-apostrophe are
substituted as the specification of `GetSubstitution` prescribes for a
pattern without capture groups, and any other dollar is literal.
-/

/-- Case-insensitive character comparison, as performed by a `/…/i` regex. -/
def ciEq (a b : Char) : Bool :=
  a.toLower == b.toLower

/-- `ciPrefixL pat s` holds when `pat` is a case-insensitive prefix of `s`. -/
def ciPrefixL : List Char → List Char → Bool
  | [], _ => true
  | _ :: _, [] => false
  | a :: as, b :: bs => ciEq a b && ciPrefixL as bs

/-- Fuel-driven scanner for global case-insensitive literal replacement:
at each position, if the pattern matches case-insensitively the replacement
is emitted and the match is skipped, otherwise the character is kept.  The
fuel is always instantiated with the length of the subject string, which
suffices because every step consumes at least one character. -/
def ciReplaceAux (pat repl : List Char) : Nat → List Char → List Char
  | _, [] => []
  | 0, s => s
  | fuel + 1, c :: rest =>
    if ciPrefixL pat (c :: rest) then
      repl ++ ciReplaceAux pat repl fuel (List.drop (pat.length - 1) rest)
    else
      c :: ciReplaceAux pat repl fuel rest

/-- Whether `pat` occurs case-insensitively anywhere in the character list. -/
def ciOccursL (pat : List Char) : List Char → Bool
  | [] => false
  | c :: rest => ciPrefixL pat (c :: rest) || ciOccursL pat rest

/-- Whether `pat` occurs case-insensitively anywhere in `s`. -/
def ciOccurs (pat s : String) : Bool :=
  ciOccursL pat.data s.data

/-- ECMAScript `GetSubstitution` for a string replacement and a pattern
without capture groups: `$$` inserts a dollar, `$&` the matched text,
dollar-backtick the part of the subject before the match, dollar-apostrophe
the part after it; any other dollar is literal.  The backtick and apostrophe
characters are written via their code points. -/
def dollarSub (matched before after : List Char) : List Char → List Char
  | [] => []
  | a :: r =>
    if a = '$' then
      match r with
      | [] => ['$']
      | b :: r2 =>
        if b = '$' then '$' :: dollarSub matched before after r2
        else if b = '&' then matched ++ dollarSub matched before after r2
        else if b = Char.ofNat 96 then before ++ dollarSub matched before after r2
        else if b = Char.ofNat 39 then after ++ dollarSub matched before after r2
        else '$' :: dollarSub matched before after (b :: r2)
    else a :: dollarSub matched before after r

/-- The global case-insensitive replacement scanner with ECMAScript
replacement-string semantics: `done` is the part of the subject already
consumed (the text to the left of the current position); on a match the
replacement is substituted via `dollarSub` against the matched text and the
surrounding subject, exactly as `String.prototype.replace` does. -/
def jsReplaceAux (pat repl : List Char) : Nat → List Char → List Char → List Char
  | _, _, [] => []
  | 0, _, s => s
  | fuel + 1, done, c :: rest =>
    if ciPrefixL pat (c :: rest) then
      dollarSub (List.take pat.length (c :: rest)) done (List.drop pat.length (c :: rest)) repl
        ++ jsReplaceAux pat repl fuel (done ++ List.take pat.length (c :: rest))
            (List.drop (pat.length - 1) rest)
    else
      c :: jsReplaceAux pat repl fuel (done ++ [c]) rest

/-- `text.replace(/pat/gi, repl)` for a literal pattern `pat`, with
ECMAScript dollar-escape handling in the replacement string. -/
def jsReplace (pat repl s : String) : String :=
  ⟨jsReplaceAux pat.data repl.data s.data.length [] s.data⟩

/-- JavaScript truthiness of a `string | null | undefined` value:
`null`, `undefined` and the empty string are falsy. -/
def strTruthy : Option String → Bool
  | none => false
  | some s => !(s == "")

/-- `IGroupForVars` from `group.interface.ts`: the recipient context passed
to the template engine. -/
structure IGroupForVars where
  group_name : String
  group_id : Option String
  telegram_link : Option String
  deriving Repr, DecidableEq

/-- `IEventDetail` from the event-detail module: the auxiliary record used
to fill template tokens.  Fields are optional, matching the `??`/`?.`
guards at every use site in `replaceVars`. -/
structure IEventDetail where
  id : String
  group_id : String
  is_one_person : Bool
  image_url : String
  name : Option String
  start_date : Option String
  end_date : Option String
  start_time : Option String
  end_time : Option String
  timezone : Option String
  location : Option String
  address : Option String
  country : Option String
  unlock_link : Option String
  year : Option Int
  slug : Option String
  deriving Repr, DecidableEq

/-- The hardcoded event record `replaceVars` substitutes when asked for a
preview (`hardcoded = true`), from `broadcast.service.ts`. -/
def hardcodedEvent : IEventDetail where
  id := "a591cf21-bec6-4a6d-909e-c89a84430de3"
  group_id := "-1001751302723"
  is_one_person := false
  image_url := "https://storage.unlock-protocol.com/9816d29f-e6a7-43c3-96b6-b9f1708fc81c"
  name := some "Sample Community Event"
  start_date := some "2025-12-25"
  end_date := some "2025-12-25"
  start_time := some "18:00"
  end_time := some "21:00"
  timezone := some "UTC"
  location := some "Sample Location"
  address := some "Sample Address"
  country := some "Sample Country"
  unlock_link := some "app.unlock-protocol.com/event/sample-event"
  year := some 2025
  slug := some "sample-event"

/-- `event?.f ?? ''` for an optional string field of the auxiliary record. -/
def evField (event : Option IEventDetail) (f : IEventDetail → Option String) : String :=
  ((event.bind f).getD "")

/-- The chain of replacements `replaceVars` performs after the `{group}`
substitution, ending with the slug-aware `{unlock_link}` branch, in the
exact order of the source. -/
def replaceVarsRest (event : Option IEventDetail) (text : String) : String :=
  let r := jsReplace "{event_name}" (evField event IEventDetail.name) text
  let r := jsReplace "{start_date}" (evField event IEventDetail.start_date) r
  let r := jsReplace "{end_date}" (evField event IEventDetail.end_date) r
  let r := jsReplace "{start_time}" (evField event IEventDetail.start_time) r
  let r := jsReplace "{end_time}" (evField event IEventDetail.end_time) r
  let r := jsReplace "{timezone}" (evField event IEventDetail.timezone) r
  let r := jsReplace "{location}" (evField event IEventDetail.location) r
  let r := jsReplace "{address}" (evField event IEventDetail.address) r
  let r := jsReplace "{year}" (((event.bind IEventDetail.year).map toString).getD "") r
  let r := jsReplace "${slug}" (evField event IEventDetail.slug) r
  let r := jsReplace "{slug}" (evField event IEventDetail.slug) r
  if strTruthy (event.bind IEventDetail.slug) then
    jsReplace "{unlock_link}"
      ("https://app.unlock-protocol.com/event/" ++ evField event IEventDetail.slug) r
  else
    jsReplace "{unlock_link}" (evField event IEventDetail.unlock_link) r

/-- `replaceVars` from `broadcast.service.ts`: substitutes the fixed token
list into `text` using the recipient context and the auxiliary event record
(the record the service would have fetched, or `hardcodedEvent` for a
preview). -/
def replaceVars (text : String) (group : Option IGroupForVars)
    (event : Option IEventDetail) : String :=
  replaceVarsRest event
    (jsReplace "{group}" ((group.map IGroupForVars.group_name).getD "") text)

/-- The scanner maps the empty subject to itself, for any fuel. -/
theorem ciReplaceAux_nil (pat repl : List Char) (f : Nat) :
    ciReplaceAux pat repl f [] = [] := by
  cases f <;> rfl

/-- A subject in which the pattern never occurs case-insensitively is left
unchanged, for any replacement and any fuel. -/
theorem ciReplaceAux_of_not_occurs (pat repl : List Char) :
    ∀ (f : Nat) (s : List Char), ciOccursL pat s = false →
      ciReplaceAux pat repl f s = s := by
  intro f
  induction f with
  | zero => intro s _; cases s <;> rfl
  | succ f ih =>
    intro s hs
    cases s with
    | nil => rfl
    | cons c rest =>
      simp only [ciOccursL, Bool.or_eq_false_iff] at hs
      simp only [ciReplaceAux, hs.1, Bool.false_eq_true, if_false]
      rw [ih rest hs.2]

/-- The dollar-aware scanner maps the empty subject to itself. -/
theorem jsReplaceAux_nil (pat repl : List Char) (f : Nat) (done : List Char) :
    jsReplaceAux pat repl f done [] = [] := by
  cases f <;> rfl

/-- A replacement string without dollars is substituted literally, whatever
the match context. -/
theorem dollarSub_no_dollar (matched before after : List Char) :
    ∀ (repl : List Char), (∀ c ∈ repl, c ≠ '$') →
      dollarSub matched before after repl = repl := by
  intro repl
  induction repl with
  | nil => intro _; rfl
  | cons a r ih =>
    intro h
    have ha : a ≠ '$' := h a (by simp)
    unfold dollarSub
    rw [if_neg ha, ih (fun c hc => h c (by simp [hc]))]

/-- A subject in which the pattern never occurs case-insensitively is left
unchanged by the dollar-aware scanner, for any replacement, fuel and
consumed prefix. -/
theorem jsReplaceAux_of_not_occurs (pat repl : List Char) :
    ∀ (f : Nat) (s : List Char), ciOccursL pat s = false →
      ∀ (done : List Char), jsReplaceAux pat repl f done s = s := by
  intro f
  induction f with
  | zero => intro s _ done; cases s <;> rfl
  | succ f ih =>
    intro s hs done
    cases s with
    | nil => rfl
    | cons c rest =>
      simp only [ciOccursL, Bool.or_eq_false_iff] at hs
      simp only [jsReplaceAux, hs.1, Bool.false_eq_true, if_false]
      rw [ih rest hs.2]

/-- String-level version of `jsReplaceAux_of_not_occurs`. -/
theorem jsReplace_of_not_occurs (pat repl s : String)
    (h : ciOccurs pat s = false) : jsReplace pat repl s = s := by
  unfold jsReplace
  rw [jsReplaceAux_of_not_occurs pat.data repl.data s.data.length s.data h []]

/-- With a dollar-free replacement the dollar-aware scanner coincides with
the literal one, whatever prefix has been consumed. -/
theorem jsReplaceAux_eq_ciReplaceAux (pat repl : List Char)
    (hrepl : ∀ c ∈ repl, c ≠ '$') :
    ∀ (f : Nat) (done s : List Char),
      jsReplaceAux pat repl f done s = ciReplaceAux pat repl f s := by
  intro f
  induction f with
  | zero => intro done s; cases s <;> rfl
  | succ f ih =>
    intro done s
    cases s with
    | nil => rfl
    | cons c rest =>
      cases hpre : ciPrefixL pat (c :: rest) with
      | false =>
        simp only [jsReplaceAux, ciReplaceAux, hpre, Bool.false_eq_true, if_false]
        rw [ih]
      | true =>
        simp only [jsReplaceAux, ciReplaceAux, hpre, if_true]
        rw [dollarSub_no_dollar _ _ _ _ hrepl, ih]

/-- Every list is a case-insensitive prefix of itself. -/
theorem ciPrefixL_self : ∀ (l : List Char), ciPrefixL l l = true := by
  intro l
  induction l with
  | nil => rfl
  | cons c rest ih =>
    simp only [ciPrefixL, ciEq, beq_self_eq_true, Bool.true_and]
    exact ih

/-- Matching the whole subject: replacing a non-empty pattern inside itself
yields exactly the substituted replacement, with empty context on both
sides of the match. -/
theorem jsReplaceAux_self (pat repl : List Char) (hne : pat ≠ []) :
    jsReplaceAux pat repl pat.length [] pat = dollarSub pat [] [] repl := by
  cases pat with
  | nil => exact absurd rfl hne
  | cons c rest =>
    have hpre := ciPrefixL_self (c :: rest)
    simp only [List.length_cons, jsReplaceAux, hpre, if_true]
    simp only [List.take_succ_cons, List.drop_succ_cons, Nat.add_sub_cancel,
      List.take_length, List.drop_length]
    rw [jsReplaceAux_nil, List.append_nil]

/-- String-level: replacing a non-empty pattern inside itself with a
dollar-free replacement yields exactly the replacement. -/
theorem jsReplace_self_no_dollar (pat repl : String) (hne : pat.data ≠ [])
    (hrepl : ∀ c ∈ repl.data, c ≠ '$') : jsReplace pat repl pat = repl := by
  unfold jsReplace
  rw [jsReplaceAux_self pat.data repl.data hne, dollarSub_no_dollar _ _ _ _ hrepl]

/-- The literal scanner does not depend on the fuel as long as it covers the
subject's length. -/
theorem ciReplaceAux_fuel_irrel (pat repl : List Char) :
    ∀ (f1 f2 : Nat) (s : List Char), s.length ≤ f1 → s.length ≤ f2 →
      ciReplaceAux pat repl f1 s = ciReplaceAux pat repl f2 s := by
  intro f1
  induction f1 with
  | zero =>
    intro f2 s h1 _
    have hs : s = [] := List.eq_nil_of_length_eq_zero (Nat.le_zero.mp h1)
    subst hs
    rw [ciReplaceAux_nil, ciReplaceAux_nil]
  | succ f1 ih =>
    intro f2 s h1 h2
    cases s with
    | nil => rw [ciReplaceAux_nil, ciReplaceAux_nil]
    | cons c rest =>
      cases f2 with
      | zero => simp at h2
      | succ f2 =>
        cases hpre : ciPrefixL pat (c :: rest) with
        | true =>
          simp only [ciReplaceAux, hpre, if_true]
          have hl1 : (List.drop (pat.length - 1) rest).length ≤ f1 := by
            simp only [List.length_cons] at h1
            rw [List.length_drop]
            omega
          have hl2 : (List.drop (pat.length - 1) rest).length ≤ f2 := by
            simp only [List.length_cons] at h2
            rw [List.length_drop]
            omega
          rw [ih f2 _ hl1 hl2]
        | false =>
          simp only [ciReplaceAux, hpre, Bool.false_eq_true, if_false]
          have hl1 : rest.length ≤ f1 := by
            simp only [List.length_cons] at h1
            omega
          have hl2 : rest.length ≤ f2 := by
            simp only [List.length_cons] at h2
            omega
          rw [ih f2 rest hl1 hl2]

/-- Scanning past a prefix that contains no character lowering to the
pattern's first character: the prefix is copied verbatim and the fuel
decreases by its length. -/
theorem ciReplaceAux_append_of_no_head (c0 : Char) (pr repl : List Char) :
    ∀ (p : List Char), (∀ c ∈ p, c.toLower ≠ c0.toLower) →
      ∀ (f : Nat) (t : List Char),
        ciReplaceAux (c0 :: pr) repl (p.length + f) (p ++ t)
          = p ++ ciReplaceAux (c0 :: pr) repl f t := by
  intro p
  induction p with
  | nil => intro _ f t; simp
  | cons c p ih =>
    intro hp f t
    have hc : ciEq c0 c = false := by
      have := hp c (by simp)
      simp only [ciEq, beq_eq_false_iff_ne, ne_eq]
      exact fun h => this h.symm
    have hstep :
        ciReplaceAux (c0 :: pr) repl (p.length + f + 1) (c :: (p ++ t))
          = c :: ciReplaceAux (c0 :: pr) repl (p.length + f) (p ++ t) := by
      simp only [ciReplaceAux, ciPrefixL, hc, Bool.false_and, Bool.false_eq_true, if_false]
    have harr : (c :: p).length + f = p.length + f + 1 := by
      simp [Nat.add_right_comm]
    rw [List.cons_append, harr, hstep, ih (fun d hd => hp d (by simp [hd])) f t]
    rfl

example : replaceVars "Hi {GROUP}" (some ⟨"Colombo", some "1", none⟩) none
    = "Hi Colombo" := by decide

theorem strDataAppend (a b : String) : (a ++ b).data = a.data ++ b.data := by
  cases a; cases b; rfl

theorem groupPatData : "{group}".data = ['{', 'g', 'r', 'o', 'u', 'p', '}'] := by decide

/-- A segment whose characters lower to the pattern's characters is a
case-insensitive prefix of any of its extensions. -/
theorem ciPrefixL_of_map (pat : List Char) :
    ∀ (s t : List Char), s.map Char.toLower = pat.map Char.toLower →
      ciPrefixL pat (s ++ t) = true := by
  induction pat with
  | nil => intro s t h; simp [ciPrefixL]
  | cons pc pr ih =>
    intro s t h
    cases s with
    | nil => simp at h
    | cons sc sr =>
      simp only [List.map_cons, List.cons.injEq] at h
      simp only [List.cons_append, ciPrefixL, ciEq, h.1, beq_self_eq_true, Bool.true_and]
      exact ih sr t h.2

/-- Consuming a case-variant of the pattern at the head of the subject: the
scanner emits the replacement and continues after the consumed segment. -/
theorem ciReplaceAux_match_head (pat repl s : List Char)
    (hlen : s.length = pat.length)
    (hmap : s.map Char.toLower = pat.map Char.toLower)
    (hne : pat ≠ []) (f : Nat) (t : List Char) :
    ciReplaceAux pat repl (f + 1) (s ++ t) = repl ++ ciReplaceAux pat repl f t := by
  cases pat with
  | nil => exact absurd rfl hne
  | cons pc pr =>
    cases s with
    | nil => simp at hmap
    | cons sc sr =>
      have hdrop : (pc :: pr).length - 1 = sr.length := by
        simp only [List.length_cons] at hlen ⊢
        omega
      have hpre : ciPrefixL (pc :: pr) (sc :: (sr ++ t)) = true := by
        simpa using ciPrefixL_of_map (pc :: pr) (sc :: sr) t hmap
      simp only [List.cons_append, ciReplaceAux, List.append_eq, hpre, if_true]
      rw [hdrop, List.drop_left]

/-- The data lemmas for the brace strings written via hex escapes. -/
theorem braceOpenData : "\x7b".data = ['{'] := by decide

theorem braceCloseData : "\x7d".data = ['}'] := by decide

theorem groupLowerData : "group".data = ['g', 'r', 'o', 'u', 'p'] := by decide

/-- A text decomposed into literal character segments interleaved with
brace-delimited token spellings, followed by a tail. -/
def spellL : List (List Char × List Char) → List Char → List Char
  | [], q => q
  | pr :: rest, q => pr.1 ++ ('{' :: (pr.2 ++ '}' :: spellL rest q))

/-- Scanning a text made of brace-free segments and case-variants of the
`group` token: every token is matched and replaced, every segment is copied,
and the scan continues on the tail with its own length as fuel. -/
theorem ciReplaceAux_spell (repl : List Char) :
    ∀ (segs : List (List Char × List Char)) (q : List Char) (f : Nat),
      (∀ pr ∈ segs, (∀ c ∈ pr.1, c.toLower ≠ '{'.toLower)
        ∧ pr.2.map Char.toLower = ['g', 'r', 'o', 'u', 'p']) →
      (spellL segs q).length ≤ f →
      ciReplaceAux "{group}".data repl f (spellL segs q)
        = (segs.map (fun pr => pr.1 ++ repl)).flatten
          ++ ciReplaceAux "{group}".data repl q.length q := by
  intro segs
  induction segs with
  | nil =>
    intro q f _ hf
    simp only [spellL, List.map_nil, List.flatten_nil, List.nil_append]
    exact ciReplaceAux_fuel_irrel _ _ f q.length q hf (Nat.le_refl _)
  | cons pr rest ih =>
    intro q f hsegs hf
    obtain ⟨hp, hv⟩ := hsegs pr (List.mem_cons_self pr rest)
    have hrest := fun pr' h' => hsegs pr' (List.mem_cons_of_mem pr h')
    have hvlen : pr.2.length = 5 := by
      have := congrArg List.length hv
      simpa using this
    have hlen : (spellL (pr :: rest) q).length
        = pr.1.length + (7 + (spellL rest q).length) := by
      simp [spellL, hvlen]
      omega
    have hfge : pr.1.length + (7 + (spellL rest q).length) ≤ f := by
      rw [← hlen]
      exact hf
    have hfdec : f = pr.1.length + ((f - pr.1.length - 1) + 1) := by omega
    have hf2ge : (spellL rest q).length ≤ f - pr.1.length - 1 := by omega
    have hmap : ('{' :: (pr.2 ++ ['}'])).map Char.toLower
        = (['{', 'g', 'r', 'o', 'u', 'p', '}'] : List Char).map Char.toLower := by
      simp only [List.map_cons, List.map_append, List.map_nil, hv]
      decide
    have hml : ('{' :: (pr.2 ++ ['}'])).length
        = (['{', 'g', 'r', 'o', 'u', 'p', '}'] : List Char).length := by
      simp [hvlen]
    show ciReplaceAux "{group}".data repl f
        (pr.1 ++ ('{' :: (pr.2 ++ '}' :: spellL rest q))) = _
    rw [groupPatData, hfdec]
    rw [ciReplaceAux_append_of_no_head '{' ['g', 'r', 'o', 'u', 'p', '}'] repl pr.1 hp
      ((f - pr.1.length - 1) + 1) ('{' :: (pr.2 ++ '}' :: spellL rest q))]
    rw [show ('{' :: (pr.2 ++ '}' :: spellL rest q))
      = ('{' :: (pr.2 ++ ['}'])) ++ spellL rest q from by simp]
    rw [ciReplaceAux_match_head ['{', 'g', 'r', 'o', 'u', 'p', '}'] repl
      ('{' :: (pr.2 ++ ['}'])) hml hmap (by simp) (f - pr.1.length - 1) (spellL rest q)]
    rw [← groupPatData]
    rw [ih q (f - pr.1.length - 1) hrest hf2ge]
    simp [List.flatten_cons, List.append_assoc]

/-- String-level interleaving of literal segments and token spellings. -/
def spellTokens : List (String × String) → String → String
  | [], q => q
  | pr :: rest, q => pr.1 ++ "\x7b" ++ pr.2 ++ "\x7d" ++ spellTokens rest q

theorem spellTokens_data :
    ∀ (segs : List (String × String)) (q : String),
      (spellTokens segs q).data
        = spellL (segs.map (fun pr => (pr.1.data, pr.2.data))) q.data := by
  intro segs
  induction segs with
  | nil => intro q; rfl
  | cons pr rest ih =>
    intro q
    simp [spellTokens, spellL, strDataAppend, braceOpenData, braceCloseData, ih q]

example : replaceVars "{unlock_link}" none
    (some { hardcodedEvent with slug := some "foo", unlock_link := some "LITERAL" })
    = "https://app.unlock-protocol.com/event/foo" := by decide

example : replaceVars "{unlock_link}" none
    (some { hardcodedEvent with slug := none, unlock_link := some "LITERAL" })
    = "LITERAL" := by decide

/-- The fixed list of template tokens `replaceVars` knows, in source order. -/
def knownPatterns : List String :=
  ["{group}", "{event_name}", "{start_date}", "{end_date}", "{start_time}",
   "{end_time}", "{timezone}", "{location}", "{address}", "{year}",
   "${slug}", "{slug}", "{unlock_link}"]

/-- C2 counterexample: the claim says `render("Hi {unknown}", ctx) == "Hi "`,
but `replaceVars` only substitutes its fixed token list and leaves `{unknown}`
literally in the output. -/
theorem C2_counterexample_unknown_token :
    ¬ (replaceVars "Hi {unknown}" (some ⟨"Sample Community", some "-1001234567890", none⟩)
        (some hardcodedEvent) = "Hi ") := by
  decide

/-- C2 (amended): a text in which no known token occurs case-insensitively is
returned unchanged by `replaceVars`, for every recipient context and every
auxiliary record; unknown tokens are left literal and rendering is total. -/
theorem C2_unknown_tokens_left_literal (s : String)
    (h : ∀ pat ∈ knownPatterns, ciOccurs pat s = false)
    (group : Option IGroupForVars) (event : Option IEventDetail) :
    replaceVars s group event = s := by
  have h01 : ∀ r, jsReplace "{group}" r s = s :=
    fun r => jsReplace_of_not_occurs _ r _ (h _ (by simp [knownPatterns]))
  have h02 : ∀ r, jsReplace "{event_name}" r s = s :=
    fun r => jsReplace_of_not_occurs _ r _ (h _ (by simp [knownPatterns]))
  have h03 : ∀ r, jsReplace "{start_date}" r s = s :=
    fun r => jsReplace_of_not_occurs _ r _ (h _ (by simp [knownPatterns]))
  have h04 : ∀ r, jsReplace "{end_date}" r s = s :=
    fun r => jsReplace_of_not_occurs _ r _ (h _ (by simp [knownPatterns]))
  have h05 : ∀ r, jsReplace "{start_time}" r s = s :=
    fun r => jsReplace_of_not_occurs _ r _ (h _ (by simp [knownPatterns]))
  have h06 : ∀ r, jsReplace "{end_time}" r s = s :=
    fun r => jsReplace_of_not_occurs _ r _ (h _ (by simp [knownPatterns]))
  have h07 : ∀ r, jsReplace "{timezone}" r s = s :=
    fun r => jsReplace_of_not_occurs _ r _ (h _ (by simp [knownPatterns]))
  have h08 : ∀ r, jsReplace "{location}" r s = s :=
    fun r => jsReplace_of_not_occurs _ r _ (h _ (by simp [knownPatterns]))
  have h09 : ∀ r, jsReplace "{address}" r s = s :=
    fun r => jsReplace_of_not_occurs _ r _ (h _ (by simp [knownPatterns]))
  have h10 : ∀ r, jsReplace "{year}" r s = s :=
    fun r => jsReplace_of_not_occurs _ r _ (h _ (by simp [knownPatterns]))
  have h11 : ∀ r, jsReplace "${slug}" r s = s :=
    fun r => jsReplace_of_not_occurs _ r _ (h _ (by simp [knownPatterns]))
  have h12 : ∀ r, jsReplace "{slug}" r s = s :=
    fun r => jsReplace_of_not_occurs _ r _ (h _ (by simp [knownPatterns]))
  have h13 : ∀ r, jsReplace "{unlock_link}" r s = s :=
    fun r => jsReplace_of_not_occurs _ r _ (h _ (by simp [knownPatterns]))
  simp only [replaceVars, replaceVarsRest, h01, h02, h03, h04, h05, h06, h07,
    h08, h09, h10, h11, h12, h13, ite_self]

/-- Witness for `C2_unknown_tokens_left_literal` at `"Hi {unknown}"`. -/
theorem C2_unknown_tokens_left_literal_witness :
    (∀ pat ∈ knownPatterns, ciOccurs pat "Hi {unknown}" = false)
    ∧ replaceVars "Hi {unknown}" (some ⟨"Sample Community", some "-1001234567890", none⟩)
        (some hardcodedEvent) = "Hi {unknown}" :=
  ⟨by decide, C2_unknown_tokens_left_literal "Hi {unknown}" (by decide) _ _⟩

/-- C9 counterexample: a slug containing the ECMAScript escape `$$` is not
concatenated verbatim — `String.prototype.replace` interprets it inside the
replacement string, so the rendered link is not the base URL followed by the
slug, refuting the claim's "always" at this input. -/
theorem C9_counterexample_dollar_slug :
    ¬ (replaceVars "{unlock_link}" none
        (some { hardcodedEvent with slug := some "$$", unlock_link := some "LITERAL" })
      = "https://app.unlock-protocol.com/event/$$") := by
  decide

/-- C9 (amended): whenever the auxiliary record carries a truthy slug free
of dollar characters, rendering the reserved `{unlock_link}` token yields
exactly the fixed base URL followed by the slug, regardless of any literal
`unlock_link` value in the record; the (dollar-free) literal value is
substituted only when no slug is present. -/
theorem C9_unlock_link_slug_override (group : Option IGroupForVars) (event : IEventDetail) :
    (strTruthy event.slug = true →
      (∀ c ∈ (event.slug.getD "").data, c ≠ '$') →
      replaceVars "{unlock_link}" group (some event)
        = "https://app.unlock-protocol.com/event/" ++ event.slug.getD "")
    ∧ (strTruthy event.slug = false →
      (∀ c ∈ (event.unlock_link.getD "").data, c ≠ '$') →
      replaceVars "{unlock_link}" group (some event) = event.unlock_link.getD "") := by
  have h01 : ∀ r, jsReplace "{group}" r "{unlock_link}" = "{unlock_link}" :=
    fun r => jsReplace_of_not_occurs _ r _ (by decide)
  have h02 : ∀ r, jsReplace "{event_name}" r "{unlock_link}" = "{unlock_link}" :=
    fun r => jsReplace_of_not_occurs _ r _ (by decide)
  have h03 : ∀ r, jsReplace "{start_date}" r "{unlock_link}" = "{unlock_link}" :=
    fun r => jsReplace_of_not_occurs _ r _ (by decide)
  have h04 : ∀ r, jsReplace "{end_date}" r "{unlock_link}" = "{unlock_link}" :=
    fun r => jsReplace_of_not_occurs _ r _ (by decide)
  have h05 : ∀ r, jsReplace "{start_time}" r "{unlock_link}" = "{unlock_link}" :=
    fun r => jsReplace_of_not_occurs _ r _ (by decide)
  have h06 : ∀ r, jsReplace "{end_time}" r "{unlock_link}" = "{unlock_link}" :=
    fun r => jsReplace_of_not_occurs _ r _ (by decide)
  have h07 : ∀ r, jsReplace "{timezone}" r "{unlock_link}" = "{unlock_link}" :=
    fun r => jsReplace_of_not_occurs _ r _ (by decide)
  have h08 : ∀ r, jsReplace "{location}" r "{unlock_link}" = "{unlock_link}" :=
    fun r => jsReplace_of_not_occurs _ r _ (by decide)
  have h09 : ∀ r, jsReplace "{address}" r "{unlock_link}" = "{unlock_link}" :=
    fun r => jsReplace_of_not_occurs _ r _ (by decide)
  have h10 : ∀ r, jsReplace "{year}" r "{unlock_link}" = "{unlock_link}" :=
    fun r => jsReplace_of_not_occurs _ r _ (by decide)
  have h11 : ∀ r, jsReplace "${slug}" r "{unlock_link}" = "{unlock_link}" :=
    fun r => jsReplace_of_not_occurs _ r _ (by decide)
  have h12 : ∀ r, jsReplace "{slug}" r "{unlock_link}" = "{unlock_link}" :=
    fun r => jsReplace_of_not_occurs _ r _ (by decide)
  constructor
  · intro htr hfree
    have hbase : ∀ c ∈ ("https://app.unlock-protocol.com/event/"
        ++ event.slug.getD "").data, c ≠ '$' := by
      intro c hc
      rw [strDataAppend] at hc
      rcases List.mem_append.mp hc with hcb | hcs
      · have hb : ∀ c ∈ ("https://app.unlock-protocol.com/event/" : String).data,
            c ≠ '$' := by decide
        exact hb c hcb
      · exact hfree c hcs
    have hs : jsReplace "{unlock_link}"
        ("https://app.unlock-protocol.com/event/" ++ event.slug.getD "") "{unlock_link}"
        = "https://app.unlock-protocol.com/event/" ++ event.slug.getD "" :=
      jsReplace_self_no_dollar _ _ (by decide) hbase
    simp only [replaceVars, replaceVarsRest, h01, h02, h03, h04, h05, h06,
      h07, h08, h09, h10, h11, h12]
    simp [htr, evField, hs]
  · intro hfa hfree
    have hs : jsReplace "{unlock_link}" (event.unlock_link.getD "") "{unlock_link}"
        = event.unlock_link.getD "" :=
      jsReplace_self_no_dollar _ _ (by decide) hfree
    simp only [replaceVars, replaceVarsRest, h01, h02, h03, h04, h05, h06,
      h07, h08, h09, h10, h11, h12]
    simp [hfa, evField, hs]

/-- Witness for `C9_unlock_link_slug_override`: the dollar-free slug `"foo"`
beats the literal `unlock_link` value `"LITERAL"`. -/
theorem C9_unlock_link_slug_override_witness :
    strTruthy (some "foo") = true
    ∧ (∀ c ∈ (((some "foo" : Option String)).getD "").data, c ≠ '$')
    ∧ replaceVars "{unlock_link}" none
        (some { hardcodedEvent with slug := some "foo", unlock_link := some "LITERAL" })
      = "https://app.unlock-protocol.com/event/foo" := by
  refine ⟨by decide, by decide, ?_⟩
  have h := (C9_unlock_link_slug_override none
    { hardcodedEvent with slug := some "foo", unlock_link := some "LITERAL" }).1
    (by decide) (by decide)
  rw [h]
  decide

/-- C10 counterexample: with a recipient whose group name is the ECMAScript
escape `$&`, the replacement echoes the matched text, so `{GROUP}` and
`{group}` render differently — rendering is not invariant under changing
the case of the token name for every context. -/
theorem C10_counterexample_dollar_name :
    ¬ (replaceVars "{GROUP}" (some ⟨"$&", some "-100", none⟩) none
      = replaceVars "{group}" (some ⟨"$&", some "-100", none⟩) none) := by
  decide

/-- C10 (amended): token matching is case-insensitive — for every text
decomposed into literal segments free of opening braces interleaved with
`{group}` tokens spelled in any letter case, rendering equals that of the
text with every token spelled lowercase, for every recipient context whose
group name contains no dollar character and every auxiliary record. -/
theorem C10_token_case_insensitive_dollar_free (group : Option IGroupForVars)
    (event : Option IEventDetail) (segs : List (String × String)) (q : String)
    (hsegs : ∀ pr ∈ segs, (∀ c ∈ pr.1.data, c.toLower ≠ '{')
      ∧ pr.2.data.map Char.toLower = "group".data)
    (hname : ∀ c ∈ ((group.map IGroupForVars.group_name).getD "").data, c ≠ '$') :
    replaceVars (spellTokens segs q) group event
      = replaceVars (spellTokens (segs.map (fun pr => (pr.1, "group"))) q) group event := by
  unfold replaceVars
  refine congrArg (replaceVarsRest event) ?_
  unfold jsReplace
  rw [jsReplaceAux_eq_ciReplaceAux _ _ hname, jsReplaceAux_eq_ciReplaceAux _ _ hname]
  rw [spellTokens_data, spellTokens_data]
  have hbr : ('{' : Char).toLower = '{' := by decide
  have hsegsL : ∀ pr ∈ segs.map (fun pr => (pr.1.data, pr.2.data)),
      (∀ c ∈ pr.1, c.toLower ≠ '{'.toLower)
      ∧ pr.2.map Char.toLower = ['g', 'r', 'o', 'u', 'p'] := by
    intro pr hpr
    obtain ⟨pr0, hpr0, rfl⟩ := List.mem_map.mp hpr
    obtain ⟨h1, h2⟩ := hsegs pr0 hpr0
    refine ⟨fun c hc => ?_, ?_⟩
    · rw [hbr]
      exact h1 c hc
    · rw [← groupLowerData]
      exact h2
  have hsegsR : ∀ pr ∈ (segs.map (fun pr => (pr.1, "group"))).map
      (fun pr => (pr.1.data, pr.2.data)),
      (∀ c ∈ pr.1, c.toLower ≠ '{'.toLower)
      ∧ pr.2.map Char.toLower = ['g', 'r', 'o', 'u', 'p'] := by
    intro pr hpr
    obtain ⟨pr1, hpr1, rfl⟩ := List.mem_map.mp hpr
    obtain ⟨pr0, hpr0, rfl⟩ := List.mem_map.mp hpr1
    obtain ⟨h1, -⟩ := hsegs pr0 hpr0
    refine ⟨fun c hc => ?_, ?_⟩
    · rw [hbr]
      exact h1 c hc
    · show ("group" : String).data.map Char.toLower = ['g', 'r', 'o', 'u', 'p']
      decide
  rw [ciReplaceAux_spell _ _ _ _ hsegsL (Nat.le_refl _)]
  rw [ciReplaceAux_spell _ _ _ _ hsegsR (Nat.le_refl _)]
  congr 2
  simp only [List.map_map]
  rfl

/-- Witness for `C10_token_case_insensitive_dollar_free`: `Hi {GROUP} and
{Group}!` renders like `Hi {group} and {group}!` for a dollar-free name. -/
theorem C10_token_case_insensitive_dollar_free_witness :
    (∀ pr ∈ [("Hi ", "GROUP"), (" and ", "Group")],
      (∀ c ∈ (pr.1 : String).data, c.toLower ≠ '{')
      ∧ (pr.2 : String).data.map Char.toLower = "group".data)
    ∧ (∀ c ∈ (((some ⟨"Colombo", some "-100", none⟩ : Option IGroupForVars)).map
        IGroupForVars.group_name).getD "" |>.data, c ≠ '$')
    ∧ replaceVars (spellTokens [("Hi ", "GROUP"), (" and ", "Group")] "!")
        (some ⟨"Colombo", some "-100", none⟩) (some hardcodedEvent)
      = replaceVars (spellTokens ([("Hi ", "GROUP"), (" and ", "Group")].map
          (fun pr => (pr.1, "group"))) "!")
        (some ⟨"Colombo", some "-100", none⟩) (some hardcodedEvent) :=
  ⟨by decide, by decide,
    C10_token_case_insensitive_dollar_free
      (some ⟨"Colombo", some "-100", none⟩) (some hardcodedEvent)
      [("Hi ", "GROUP"), (" and ", "Group")] "!" (by decide) (by decide)⟩

/-- `IGroup` from `group.interface.ts`: a community group row.  `group_id` is
the Telegram chat id (the recipient's external id); it is optional here
because the delivery loop explicitly guards against its absence. -/
structure IGroup where
  id : String
  name : String
  group_id : Option String
  telegram_link : Option String
  category_id : Option String
  subcategory_id : Option String
  deriving Repr, DecidableEq

/-- CSV escaping of the group name in `sendMessages`: wrap in quotes when it
contains a comma. -/
def escapedGroupName (name : String) : String :=
  if name.data.contains ',' then "\"" ++ name ++ "\"" else name

/-- `String(error).replace(/"/g, '""')` on the character list. -/
def escQuotesL : List Char → List Char
  | [] => []
  | c :: r => if c = '"' then '"' :: '"' :: escQuotesL r else c :: escQuotesL r

/-- `String(error).replace(/"/g, '""')`. -/
def escapeQuotes (s : String) : String :=
  ⟨escQuotesL s.data⟩

/-- `group.group_id || ''` as used when building CSV entries. -/
def gidDisplay (g : IGroup) : String :=
  g.group_id.getD ""

/-- `group.group_id ?? group.id` as used by `saveMessageDetail`. -/
def detailGroupId (g : IGroup) : String :=
  match g.group_id with
  | some s => s
  | none => g.id

/-- The prefix `sendMessages` uses for its duplicate-entry check:
`` `${escapedGroupName},${group.group_id || ''}` ``. -/
def csvPrefix (g : IGroup) : String :=
  escapedGroupName g.name ++ "," ++ gidDisplay g

/-- Outcome of one outbound dispatch attempt: `ok mid pinError` is a
successful send returning Telegram message id `mid`, where `pinError = some e`
means a subsequent pin attempt would raise `e`; `err e` is a raised
dispatch error. -/
inductive DispatchResult where
  | ok (messageId : Nat) (pinError : Option String)
  | err (message : String)
  deriving Repr, DecidableEq

/-- One row of the `broadcast_message_detail` table (`IBroadcastMessageDetail`),
as inserted by `saveMessageDetail`. -/
structure BroadcastDetailRow where
  broadcast_id : String
  message_id : Option String
  group_id : String
  is_sent : Bool
  deriving Repr, DecidableEq

/-- The mutable state of one message variant's recipient loop in
`sendMessages`: counters, the CSV entry lists, and the detail rows written
through `saveMessageDetail`. -/
structure SendState where
  successCount : Nat
  failureCount : Nat
  successEntries : List String
  failureEntries : List String
  details : List BroadcastDetailRow
  deriving Repr, DecidableEq

/-- The empty loop state at the start of a variant. -/
def initSendState : SendState :=
  ⟨0, 0, [], [], []⟩

/-- One iteration of the recipient loop in `sendMessages` for a message with
pin flag `isPinned`: skip recipients without a truthy `group_id` (counted as
failures, no row); on dispatch failure record a CSV failure entry and a
detail row; on success optionally record a pin-failure entry, bump the
success counter, and — unless an existing success entry starts with the same
name/id prefix — record a success entry and a detail row. -/
def sendStep (isPinned : Bool) (broadcastId : String) (st : SendState)
    (g : IGroup) (r : DispatchResult) : SendState :=
  if strTruthy g.group_id = false then
    { st with failureCount := st.failureCount + 1 }
  else
    match r with
    | .err e =>
      { st with
        failureCount := st.failureCount + 1,
        failureEntries := st.failureEntries
          ++ [csvPrefix g ++ ",Failed,\"" ++ escapeQuotes e ++ "\""],
        details := st.details ++ [⟨broadcastId, none, detailGroupId g, false⟩] }
    | .ok mid pinError =>
      let se1 :=
        if isPinned then
          match pinError with
          | some e => st.successEntries
              ++ [csvPrefix g ++ ",Success (pin failed),\"" ++ escapeQuotes e ++ "\""]
          | none => st.successEntries
        else st.successEntries
      if se1.any (fun entry => (csvPrefix g).isPrefixOf entry) then
        { st with successCount := st.successCount + 1, successEntries := se1 }
      else
        { st with
          successCount := st.successCount + 1,
          successEntries := se1 ++ [csvPrefix g ++ ",Success"],
          details := st.details ++ [⟨broadcastId, some (toString mid), detailGroupId g, true⟩] }

/-- The recipient loop of `sendMessages` for one message variant, over the
resolved recipients paired with their dispatch outcomes. -/
def sendRun (isPinned : Bool) (broadcastId : String) :
    List (IGroup × DispatchResult) → SendState → SendState
  | [], st => st
  | (g, r) :: rest, st => sendRun isPinned broadcastId rest (sendStep isPinned broadcastId st g r)

/-- Each loop iteration increments exactly one of the two counters and
writes at most one detail row. -/
theorem sendStep_counts (isPinned : Bool) (broadcastId : String) (st : SendState)
    (g : IGroup) (r : DispatchResult) :
    (sendStep isPinned broadcastId st g r).successCount
        + (sendStep isPinned broadcastId st g r).failureCount
      = st.successCount + st.failureCount + 1
    ∧ (sendStep isPinned broadcastId st g r).details.length ≤ st.details.length + 1 := by
  simp only [sendStep]
  repeat' split
  all_goals simp
  all_goals omega

/-- Loop invariant of the recipient loop: counters sum to the number of
processed recipients, and at most one detail row is written per recipient. -/
theorem sendRun_counts (isPinned : Bool) (broadcastId : String) :
    ∀ (l : List (IGroup × DispatchResult)) (st : SendState),
      (sendRun isPinned broadcastId l st).successCount
          + (sendRun isPinned broadcastId l st).failureCount
        = st.successCount + st.failureCount + l.length
      ∧ (sendRun isPinned broadcastId l st).details.length ≤ st.details.length + l.length := by
  intro l
  induction l with
  | nil => intro st; simp [sendRun]
  | cons gr rest ih =>
    intro st
    obtain ⟨g, r⟩ := gr
    have hstep := sendStep_counts isPinned broadcastId st g r
    have hrest := ih (sendStep isPinned broadcastId st g r)
    simp only [sendRun, List.length_cons]
    constructor
    · omega
    · omega

/-- C1 counterexample: over the one-recipient list whose group lacks a
`group_id`, the loop writes zero `broadcast_message_detail` rows, not one
per recipient as claimed. -/
theorem C1_counterexample_missing_group_id :
    ¬ ((sendRun false "b-1"
        [((⟨"uuid-1", "Alpha", none, none, some "c1", none⟩ : IGroup),
          DispatchResult.err "unreachable")]
        initSendState).details.length
      = [((⟨"uuid-1", "Alpha", none, none, some "c1", none⟩ : IGroup),
          DispatchResult.err "unreachable")].length) := by
  decide

/-- C1 (amended): over R recipients the loop always ends with
`successCount + failureCount = R`, but it writes at most R delivery rows —
a recipient without a truthy external id is counted as a failure without a
row, and a successful attempt writes no row when a pin failure was recorded
or an earlier success entry shares its name/id prefix. -/
theorem C1_counts_sum_and_rows_bounded (isPinned : Bool) (broadcastId : String)
    (l : List (IGroup × DispatchResult)) :
    (sendRun isPinned broadcastId l initSendState).successCount
        + (sendRun isPinned broadcastId l initSendState).failureCount
      = l.length
    ∧ (sendRun isPinned broadcastId l initSendState).details.length ≤ l.length := by
  have h := sendRun_counts isPinned broadcastId l initSendState
  simpa [initSendState] using h

/-- C8: a recipient whose dispatch succeeds but whose pin attempt raises is
counted as a success (success counter incremented, failure counter
unchanged) and the export gains a `Success (pin failed)` entry carrying the
captured error text. -/
theorem C8_pin_failure_annotated_success (broadcastId : String) (st : SendState)
    (g : IGroup) (mid : Nat) (e : String) (hg : strTruthy g.group_id = true) :
    (sendStep true broadcastId st g (DispatchResult.ok mid (some e))).successCount
        = st.successCount + 1
    ∧ (sendStep true broadcastId st g (DispatchResult.ok mid (some e))).failureCount
        = st.failureCount
    ∧ (csvPrefix g ++ ",Success (pin failed),\"" ++ escapeQuotes e ++ "\"")
        ∈ (sendStep true broadcastId st g (DispatchResult.ok mid (some e))).successEntries := by
  unfold sendStep
  rw [hg]
  simp only [Bool.true_eq_false, if_false]
  split
  next =>
    split
    next => exact ⟨by simp, by simp, by simp⟩
    next => exact ⟨by simp, by simp, by simp⟩
  next h => exact absurd trivial h

/-- Witness for `C8_pin_failure_annotated_success` at a concrete recipient. -/
theorem C8_pin_failure_annotated_success_witness :
    strTruthy (some "-100200") = true
    ∧ (sendStep true "b-2" initSendState ⟨"uuid-2", "Beta", some "-100200", none, some "c1", none⟩
          (DispatchResult.ok 7 (some "pin denied"))).successCount = 0 + 1
    ∧ (sendStep true "b-2" initSendState ⟨"uuid-2", "Beta", some "-100200", none, some "c1", none⟩
          (DispatchResult.ok 7 (some "pin denied"))).failureCount = 0
    ∧ (csvPrefix ⟨"uuid-2", "Beta", some "-100200", none, some "c1", none⟩
          ++ ",Success (pin failed),\"" ++ escapeQuotes "pin denied" ++ "\"")
        ∈ (sendStep true "b-2" initSendState ⟨"uuid-2", "Beta", some "-100200", none, some "c1", none⟩
          (DispatchResult.ok 7 (some "pin denied"))).successEntries := by
  refine ⟨by decide, ?_⟩
  exact C8_pin_failure_annotated_success "b-2" initSendState
    ⟨"uuid-2", "Beta", some "-100200", none, some "c1", none⟩ 7 "pin denied" (by decide)

/-- The XOR invariant of the group data model: exactly one of the two
foreign keys `category_id`/`subcategory_id` is set. -/
def xorFK (g : IGroup) : Bool :=
  g.category_id.isSome != g.subcategory_id.isSome

/-- The database write performed by `applyCategory` in
`category-selection.service.ts`:
`updateGroup(groupId, { category_id: categoryId, subcategory_id: subcategoryId || null })`. -/
def applyCategoryUpdate (g : IGroup) (categoryId : String)
    (subcategoryId : Option String) : IGroup :=
  { g with
    category_id := some categoryId,
    subcategory_id :=
      match subcategoryId with
      | some s => if s = "" then none else some s
      | none => none }

/-- C4 (code bug): when a subcategory is selected, `applyCategory` writes
both `category_id` and `subcategory_id` non-null, violating the XOR
invariant that `group.interface.ts` documents as "mutually exclusive" and
that the claim requires; the migration adds no check constraint either. -/
theorem C4_applyCategory_sets_both_keys :
    (applyCategoryUpdate ⟨"uuid-3", "Gamma", some "-1003", none, some "cat-other", none⟩
        "cat-sri-lanka" (some "sub-ceylon-cash")).category_id = some "cat-sri-lanka"
    ∧ (applyCategoryUpdate ⟨"uuid-3", "Gamma", some "-1003", none, some "cat-other", none⟩
        "cat-sri-lanka" (some "sub-ceylon-cash")).subcategory_id = some "sub-ceylon-cash"
    ∧ xorFK (applyCategoryUpdate ⟨"uuid-3", "Gamma", some "-1003", none, some "cat-other", none⟩
        "cat-sri-lanka" (some "sub-ceylon-cash")) = false := by
  decide

/-- `RunCache.delete key`: the cache as the list of keys currently present. -/
def delKey (k : String) (c : List String) : List String :=
  c.filter (fun x => x ≠ k)

/-- `clearGroupCache` from `group.service.ts`: always drops the two global
list keys; drops the category keys only when the group's own `category_id`
is truthy, and the subcategory key only when its own `subcategory_id` is
truthy. -/
def clearGroupCache (g : Option IGroup) (cache : List String) : List String :=
  let c1 := delKey "groups:all" cache
  let c2 := delKey "groups:all:hierarchy" c1
  let c3 :=
    if strTruthy (g.bind IGroup.category_id) then
      delKey ("groups:category:all:" ++ ((g.bind IGroup.category_id).getD ""))
        (delKey ("groups:category:" ++ ((g.bind IGroup.category_id).getD "")) c2)
    else c2
  if strTruthy (g.bind IGroup.subcategory_id) then
    delKey ("groups:subcategory:" ++ ((g.bind IGroup.subcategory_id).getD "")) c3
  else c3

/-- The exact key set `clearGroupCache` removes, read off the source. -/
def clearedKeys (g : Option IGroup) : List String :=
  ["groups:all", "groups:all:hierarchy"]
  ++ (if strTruthy (g.bind IGroup.category_id) then
        ["groups:category:" ++ ((g.bind IGroup.category_id).getD ""),
         "groups:category:all:" ++ ((g.bind IGroup.category_id).getD "")]
      else [])
  ++ (if strTruthy (g.bind IGroup.subcategory_id) then
        ["groups:subcategory:" ++ ((g.bind IGroup.subcategory_id).getD "")]
      else [])

/-- C3 counterexample: a write to a group attached to subcategory `s1`
(whose parent category is `c1`) leaves the cached all-groups-under-`c1`
selector entry in place — the touched category's aggregate cache entry is
not invalidated, so it can stay stale past the write. -/
theorem C3_counterexample_parent_category_cache_survives :
    "groups:category:all:c1" ∈ clearGroupCache
      (some ⟨"uuid-4", "Delta", some "-1004", none, none, some "s1"⟩)
      ["groups:category:all:c1"] := by
  decide

/-- C3 (amended): cache invalidation on a group write removes exactly the
global list keys, the group's own category keys when `category_id` is set,
and its own subcategory key when `subcategory_id` is set — never the parent
category's aggregate key for a subcategory-only group, and category or
subcategory CRUD clears nothing. -/
theorem C3_clearGroupCache_exact_keys (g : Option IGroup) (cache : List String) (k : String) :
    k ∈ clearGroupCache g cache ↔ (k ∈ cache ∧ k ∉ clearedKeys g) := by
  by_cases hc : strTruthy (Option.bind g IGroup.category_id) = true
  · by_cases hs : strTruthy (Option.bind g IGroup.subcategory_id) = true
    · simp [clearGroupCache, clearedKeys, delKey, hc, hs, List.mem_filter]
      tauto
    · simp [clearGroupCache, clearedKeys, delKey, hc, hs, List.mem_filter]
      tauto
  · by_cases hs : strTruthy (Option.bind g IGroup.subcategory_id) = true
    · simp [clearGroupCache, clearedKeys, delKey, hc, hs, List.mem_filter]
      tauto
    · simp [clearGroupCache, clearedKeys, delKey, hc, hs, List.mem_filter]
      tauto

/-- A URL button of a composed message. -/
structure UrlButton where
  text : String
  url : String
  deriving Repr, DecidableEq

/-- `IPostMessage` from `broadcast.type.ts`: one composed message variant. -/
structure IPostMessage where
  text : Option String
  isPinned : Bool
  urlButtons : List UrlButton
  mediaUrl : Option String
  mediaType : Option String
  messageId : Option Nat
  deriving Repr, DecidableEq

/-- `IBroadcastTarget`: the selected broadcast scope. -/
structure IBroadcastTarget where
  type : String
  categoryId : Option String
  categoryName : Option String
  subcategoryId : Option String
  subcategoryName : Option String
  deriving Repr, DecidableEq

/-- The per-admin user state object held in the key-value store, with
optional keys (`none` models an absent key in the stored JSON object). -/
structure UserStateObj where
  flow : Option String
  step : Option String
  messages : Option (List IPostMessage)
  broadcastTarget : Option IBroadcastTarget
  currentAction : Option String
  currentMessageIndex : Option Nat
  selectedAction : Option String
  deriving Repr, DecidableEq

/-- The JavaScript object spread `{ ...prev, ...p }`: keys present in `p`
override `prev`, keys absent in `p` are kept from `prev`. -/
def mergeUserState (prev p : UserStateObj) : UserStateObj where
  flow := p.flow.orElse fun _ => prev.flow
  step := p.step.orElse fun _ => prev.step
  messages := p.messages.orElse fun _ => prev.messages
  broadcastTarget := p.broadcastTarget.orElse fun _ => prev.broadcastTarget
  currentAction := p.currentAction.orElse fun _ => prev.currentAction
  currentMessageIndex := p.currentMessageIndex.orElse fun _ => prev.currentMessageIndex
  selectedAction := p.selectedAction.orElse fun _ => prev.selectedAction

/-- The default state `setUserState` assumes when nothing is cached:
`{ flow: 'idle' }`. -/
def idleUserState : UserStateObj :=
  ⟨some "idle", none, none, none, none, none, none⟩

/-- `CommonService.setUserState`: merge the partial update into the
previously cached state (not replace it), then normalise a falsy `flow` to
`'idle'`. -/
def setUserState (prevOpt : Option UserStateObj) (p : UserStateObj) : UserStateObj :=
  let prev := prevOpt.getD idleUserState
  let merged := mergeUserState prev p
  if strTruthy merged.flow then merged else { merged with flow := some "idle" }

/-- The fresh-session object `handleGlobalSelection` passes to
`setUserState`: flow `broadcast`, step `creating_post`, empty message list,
the chosen target, and no other keys. -/
def broadcastStartPayload (target : IBroadcastTarget) : UserStateObj :=
  ⟨some "broadcast", some "creating_post", some [], some target, none, none, none⟩

/-- C6 counterexample: starting a new global broadcast on top of a stored
session that carries a pending-edit marker does not replace the state
wholesale — the marker (`currentMessageIndex`, `currentAction`) survives the
merge, so the result differs from the fresh session object. -/
theorem C6_counterexample_stale_fields_survive :
    ¬ (setUserState
        (some ⟨some "broadcast", some "creating_post",
          some [⟨some "old text", true, [], none, none, some 5⟩],
          some ⟨"category", some "c9", some "Nine", none, none⟩,
          some "attach_media", some 2, some "edit"⟩)
        (broadcastStartPayload ⟨"global", none, none, none, none⟩)
      = broadcastStartPayload ⟨"global", none, none, none, none⟩) := by
  decide

/-- C6 (amended): a new broadcast start overwrites exactly the payload's
keys — flow, step, message list, and target — while `setUserState` merges
every other key of the previously stored state into the new session
(pending-edit markers and the like survive). -/
theorem C6_start_merges_previous_state (prev : UserStateObj) (t : IBroadcastTarget) :
    (setUserState (some prev) (broadcastStartPayload t)).flow = some "broadcast"
    ∧ (setUserState (some prev) (broadcastStartPayload t)).step = some "creating_post"
    ∧ (setUserState (some prev) (broadcastStartPayload t)).messages = some []
    ∧ (setUserState (some prev) (broadcastStartPayload t)).broadcastTarget = some t
    ∧ (setUserState (some prev) (broadcastStartPayload t)).currentAction = prev.currentAction
    ∧ (setUserState (some prev) (broadcastStartPayload t)).currentMessageIndex
        = prev.currentMessageIndex
    ∧ (setUserState (some prev) (broadcastStartPayload t)).selectedAction
        = prev.selectedAction := by
  simp [setUserState, mergeUserState, broadcastStartPayload, strTruthy, Option.orElse]

/-- `IBroadcastSession` from `broadcast.type.ts` (the fields
`previewMessages` and the compose flow touch). -/
structure IBroadcastSession where
  step : String
  selectedAction : Option String
  messages : List IPostMessage
  currentAction : Option String
  currentMessageIndex : Option Nat
  deriving Repr, DecidableEq

/-- The fixed synthetic recipient `previewMessages` renders against. -/
def previewGroup : IGroupForVars :=
  ⟨"Sample Community", some "-1001234567890", some "https://t.me/samplecommunity"⟩

/-- `message.mediaType && message.mediaUrl`: the preview takes the media
branch only when both are truthy. -/
def previewMedia (m : IPostMessage) : Bool :=
  strTruthy m.mediaType && strTruthy m.mediaUrl

/-- Whether the preview iteration assigns `message.messageId`: always in the
plain-text branch; in the media branch only for the four media kinds the
switch handles (otherwise nothing is sent and the id is left alone). -/
def previewSetsMessageId (m : IPostMessage) : Bool :=
  if previewMedia m then
    (m.mediaType == some "photo") || (m.mediaType == some "video")
      || (m.mediaType == some "document") || (m.mediaType == some "animation")
  else true

/-- The per-message loop of `previewMessages`: renders each message against
the fixed synthetic recipient and the hardcoded event, stores the id of the
freshly sent preview message into the session message, and persists the
session once per message.  `ids i` is the Telegram message id returned for
the `i`-th preview send; the result is the final message list, the number of
`setUserState` persistence calls, and the rendered texts. -/
def previewLoop (ids : Nat → Nat) : Nat → List IPostMessage →
    List IPostMessage × Nat × List String
  | _, [] => ([], 0, [])
  | i, m :: rest =>
    let pl := previewLoop ids (i + 1) rest
    ((if previewSetsMessageId m then { m with messageId := some (ids i) } else m) :: pl.1,
     pl.2.1 + 1,
     replaceVars (m.text.getD "") (some previewGroup) (some hardcodedEvent) :: pl.2.2)

/-- `previewMessages`: runs the preview loop over the session's messages and
writes the updated list back into the session. -/
def previewMessages (ids : Nat → Nat) (session : IBroadcastSession) :
    IBroadcastSession × Nat × List String :=
  ({ session with messages := (previewLoop ids 0 session.messages).1 },
   (previewLoop ids 0 session.messages).2.1,
   (previewLoop ids 0 session.messages).2.2)

/-- C7 counterexample: previewing a one-message session mutates the stored
session (the message's `messageId` is set to the preview send's id) and
persists it once — it is not a pure read. -/
theorem C7_counterexample_preview_writes_back :
    ¬ ((previewMessages (fun _ => 42)
          ⟨"creating_post", none, [⟨some "Hello {group}", false, [], none, none, none⟩],
            none, none⟩).1
        = ⟨"creating_post", none, [⟨some "Hello {group}", false, [], none, none, none⟩],
            none, none⟩
      ∧ (previewMessages (fun _ => 42)
          ⟨"creating_post", none, [⟨some "Hello {group}", false, [], none, none, none⟩],
            none, none⟩).2.1
        = 0) := by
  decide

/-- The preview loop keeps every field of every message except `messageId`,
persists once per message, and renders each message against the fixed
synthetic recipient and hardcoded event. -/
theorem previewLoop_spec (ids : Nat → Nat) :
    ∀ (l : List IPostMessage) (i : Nat),
      (previewLoop ids i l).1.length = l.length
      ∧ (previewLoop ids i l).2.1 = l.length
      ∧ (previewLoop ids i l).2.2
          = l.map (fun m => replaceVars (m.text.getD "") (some previewGroup)
              (some hardcodedEvent))
      ∧ ∀ pr ∈ (previewLoop ids i l).1.zip l,
          pr.1.text = pr.2.text ∧ pr.1.isPinned = pr.2.isPinned
          ∧ pr.1.urlButtons = pr.2.urlButtons ∧ pr.1.mediaUrl = pr.2.mediaUrl
          ∧ pr.1.mediaType = pr.2.mediaType := by
  intro l
  induction l with
  | nil => intro i; simp [previewLoop]
  | cons m rest ih =>
    intro i
    obtain ⟨ih1, ih2, ih3, ih4⟩ := ih (i + 1)
    refine ⟨by simp [previewLoop, ih1], by simp [previewLoop, ih2],
      by simp [previewLoop, ih3], ?_⟩
    intro pr hpr
    simp only [previewLoop, List.zip_cons_cons, List.mem_cons] at hpr
    rcases hpr with hhead | htail
    · subst hhead
      by_cases hset : previewSetsMessageId m = true
      · simp [hset]
      · simp [hset]
    · exact ih4 pr htail

/-- C7 (amended): `previewMessages` renders every message against the fixed
synthetic recipient and hardcoded auxiliary record and leaves step, action
markers, and every message field except `messageId` unchanged, but it is
not a pure read: it persists the session once per message, writing each
preview send's message id into the stored message list. -/
theorem C7_preview_renders_but_persists (ids : Nat → Nat) (session : IBroadcastSession) :
    (previewMessages ids session).1.step = session.step
    ∧ (previewMessages ids session).1.selectedAction = session.selectedAction
    ∧ (previewMessages ids session).1.currentAction = session.currentAction
    ∧ (previewMessages ids session).1.currentMessageIndex = session.currentMessageIndex
    ∧ (previewMessages ids session).2.1 = session.messages.length
    ∧ (previewMessages ids session).2.2
        = session.messages.map (fun m => replaceVars (m.text.getD "") (some previewGroup)
            (some hardcodedEvent))
    ∧ (previewMessages ids session).1.messages.length = session.messages.length
    ∧ ∀ pr ∈ (previewMessages ids session).1.messages.zip session.messages,
        pr.1.text = pr.2.text ∧ pr.1.isPinned = pr.2.isPinned
        ∧ pr.1.urlButtons = pr.2.urlButtons ∧ pr.1.mediaUrl = pr.2.mediaUrl
        ∧ pr.1.mediaType = pr.2.mediaType := by
  obtain ⟨h1, h2, h3, h4⟩ := previewLoop_spec ids session.messages 0
  exact ⟨rfl, rfl, rfl, rfl, h2, h3, h1, h4⟩

/-- Witness for `C7_preview_renders_but_persists` on a concrete session. -/
theorem C7_preview_renders_but_persists_witness :
    (previewMessages (fun _ => 42)
        ⟨"creating_post", none, [⟨some "Hello {group}", false, [], none, none, none⟩],
          none, none⟩).2.1
      = [(⟨some "Hello {group}", false, [], none, none, none⟩ : IPostMessage)].length
    ∧ ∀ pr ∈ ((previewMessages (fun _ => 42)
        ⟨"creating_post", none, [⟨some "Hello {group}", false, [], none, none, none⟩],
          none, none⟩).1.messages.zip
            [(⟨some "Hello {group}", false, [], none, none, none⟩ : IPostMessage)]),
        pr.1.text = pr.2.text ∧ pr.1.isPinned = pr.2.isPinned
        ∧ pr.1.urlButtons = pr.2.urlButtons ∧ pr.1.mediaUrl = pr.2.mediaUrl
        ∧ pr.1.mediaType = pr.2.mediaType := by
  have h := C7_preview_renders_but_persists (fun _ => 42)
    ⟨"creating_post", none, [⟨some "Hello {group}", false, [], none, none, none⟩], none, none⟩
  exact ⟨h.2.2.2.2.1, h.2.2.2.2.2.2.2⟩

/-- A row of the `subcategory` table. -/
structure SubcategoryRow where
  id : String
  name : String
  category_id : String
  deriving Repr, DecidableEq

/-- A row of the `category` table. -/
structure CategoryRow where
  id : String
  name : String
  has_subcategories : Bool
  deriving Repr, DecidableEq

/-- The hierarchy read model: categories, subcategories and groups. -/
structure HierarchyDb where
  categories : List CategoryRow
  subcategories : List SubcategoryRow
  groups : List IGroup
  deriving Repr, DecidableEq

/-- `getGroupsByCategory`: direct groups of a category
(`where category_id = c`). -/
def getGroupsByCategory (db : HierarchyDb) (c : String) : List IGroup :=
  db.groups.filter (fun g => g.category_id == some c)

/-- `getGroupsBySubcategory`: direct groups of a subcategory
(`where subcategory_id = s`). -/
def getGroupsBySubcategory (db : HierarchyDb) (s : String) : List IGroup :=
  db.groups.filter (fun g => g.subcategory_id == some s)

/-- The nested-group query of `getAllGroupsUnderCategory`: groups joined to
a subcategory whose `category_id` is `c`.  `subcategory.id` is the table's
primary key, so each group matches at most one subcategory row and the SQL
join yields each group at most once, as the `any` does. -/
def nestedGroupsUnderCategory (db : HierarchyDb) (c : String) : List IGroup :=
  db.groups.filter
    (fun g => db.subcategories.any (fun s => g.subcategory_id == some s.id && s.category_id == c))

/-- `getAllGroupsUnderCategory` from `group.service.ts`: the direct groups
concatenated with the nested ones — note there is no deduplication step. -/
def getAllGroupsUnderCategory (db : HierarchyDb) (c : String) : List IGroup :=
  getGroupsByCategory db c ++ nestedGroupsUnderCategory db c

/-- First-occurrence deduplication by external id, seen-set accumulator. -/
def dedupByExternalIdAux (seen : List (Option String)) : List IGroup → List IGroup
  | [] => []
  | g :: rest =>
    if g.group_id ∈ seen then dedupByExternalIdAux seen rest
    else g :: dedupByExternalIdAux (g.group_id :: seen) rest

/-- Modelled from the spec: "Result is deduplicated by external id" — keep
the first occurrence of each external id. -/
def dedupByExternalId (l : List IGroup) : List IGroup :=
  dedupByExternalIdAux [] l

/-- Modelled from the spec:
`resolve(category:C) == dedup(direct(C) ∪ ⋃ direct(S) for S in subcategories(C))`. -/
def specResolveCategory (db : HierarchyDb) (c : String) : List IGroup :=
  dedupByExternalId (getGroupsByCategory db c
    ++ (db.subcategories.filter (fun s => s.category_id == c)).flatMap
        (fun s => getGroupsBySubcategory db s.id))

/-- C5 counterexample: on a database holding one group row with both
foreign keys set (a state `applyCategory` itself produces), the resolver
returns that group twice — the result is not the deduplicated union the
claim demands. -/
theorem C5_counterexample_duplicate_group :
    ¬ (getAllGroupsUnderCategory
        ⟨[⟨"c1", "Sri Lanka", true⟩], [⟨"s1", "Community", "c1"⟩],
          [⟨"uuid-5", "Epsilon", some "-1005", none, some "c1", some "s1"⟩]⟩ "c1"
      = specResolveCategory
        ⟨[⟨"c1", "Sri Lanka", true⟩], [⟨"s1", "Community", "c1"⟩],
          [⟨"uuid-5", "Epsilon", some "-1005", none, some "c1", some "s1"⟩]⟩ "c1") := by
  decide

/-- Membership in the deduplicated list, assuming external ids are injective
on the underlying list: dedup keeps exactly the elements whose key is not in
the seen set. -/
theorem mem_dedupByExternalIdAux (l : List IGroup)
    (hinj : ∀ g1 ∈ l, ∀ g2 ∈ l, g1.group_id = g2.group_id → g1 = g2) :
    ∀ (seen : List (Option String)) (g : IGroup),
      g ∈ dedupByExternalIdAux seen l ↔ (g ∈ l ∧ g.group_id ∉ seen) := by
  induction l with
  | nil => intro seen g; simp [dedupByExternalIdAux]
  | cons h rest ih =>
    have hinjr : ∀ g1 ∈ rest, ∀ g2 ∈ rest, g1.group_id = g2.group_id → g1 = g2 :=
      fun g1 h1 g2 h2 => hinj g1 (List.mem_cons_of_mem h h1) g2 (List.mem_cons_of_mem h h2)
    intro seen g
    by_cases hmem : h.group_id ∈ seen
    · rw [dedupByExternalIdAux, if_pos hmem, ih hinjr seen g]
      constructor
      · rintro ⟨hg, hs⟩
        exact ⟨List.mem_cons_of_mem h hg, hs⟩
      · rintro ⟨hg, hs⟩
        rcases List.mem_cons.mp hg with rfl | hg'
        · exact absurd hmem hs
        · exact ⟨hg', hs⟩
    · rw [dedupByExternalIdAux, if_neg hmem]
      constructor
      · intro hg
        rcases List.mem_cons.mp hg with rfl | hg'
        · exact ⟨List.mem_cons_self _ _, hmem⟩
        · obtain ⟨hgr, hs⟩ := (ih hinjr (h.group_id :: seen) g).mp hg'
          refine ⟨List.mem_cons_of_mem h hgr, fun hc => hs (List.mem_cons_of_mem _ hc)⟩
      · rintro ⟨hg, hs⟩
        rcases List.mem_cons.mp hg with rfl | hg'
        · exact List.mem_cons_self _ _
        · by_cases hkey : g.group_id = h.group_id
          · have : g = h := hinj g (List.mem_cons_of_mem h hg') h (List.mem_cons_self h rest) hkey
            rw [this]
            exact List.mem_cons_self _ _
          · refine List.mem_cons_of_mem _ ((ih hinjr (h.group_id :: seen) g).mpr
              ⟨hg', fun hc => ?_⟩)
            rcases List.mem_cons.mp hc with he | hc'
            · exact hkey he
            · exact hs hc'

/-- C5 (amended): with the XOR foreign-key invariant actually holding for
every group row and external ids unique (the schema's unique constraint on
`group_id`), the resolver's concatenation has the same members as the
spec's deduplicated union and contains no duplicate external id — but the
code performs no deduplication of its own, so the equation fails on rows
violating the XOR invariant. -/
theorem C5_resolve_category_is_dedup_union (db : HierarchyDb) (c : String)
    (hxor : ∀ g ∈ db.groups, xorFK g = true)
    (hkeys : (db.groups.map IGroup.group_id).Nodup) :
    (∀ g, g ∈ getAllGroupsUnderCategory db c ↔ g ∈ specResolveCategory db c)
    ∧ ((getAllGroupsUnderCategory db c).map IGroup.group_id).Nodup := by
  have hinj : ∀ g1 ∈ db.groups, ∀ g2 ∈ db.groups, g1.group_id = g2.group_id → g1 = g2 :=
    fun g1 h1 g2 h2 he => List.inj_on_of_nodup_map hkeys h1 h2 he
  have hUsub : ∀ g ∈ (getGroupsByCategory db c
      ++ (db.subcategories.filter (fun s => s.category_id == c)).flatMap
          (fun s => getGroupsBySubcategory db s.id)), g ∈ db.groups := by
    intro g hg
    rcases List.mem_append.mp hg with h1 | h2
    · exact (List.mem_filter.mp h1).1
    · obtain ⟨s, _, hgs⟩ := List.mem_flatMap.mp h2
      exact (List.mem_filter.mp hgs).1
  have hinjU : ∀ g1 ∈ (getGroupsByCategory db c
      ++ (db.subcategories.filter (fun s => s.category_id == c)).flatMap
          (fun s => getGroupsBySubcategory db s.id)),
      ∀ g2 ∈ (getGroupsByCategory db c
      ++ (db.subcategories.filter (fun s => s.category_id == c)).flatMap
          (fun s => getGroupsBySubcategory db s.id)),
      g1.group_id = g2.group_id → g1 = g2 :=
    fun g1 h1 g2 h2 => hinj g1 (hUsub g1 h1) g2 (hUsub g2 h2)
  constructor
  · intro g
    have hspec : g ∈ specResolveCategory db c ↔ g ∈ (getGroupsByCategory db c
        ++ (db.subcategories.filter (fun s => s.category_id == c)).flatMap
            (fun s => getGroupsBySubcategory db s.id)) := by
      have h := mem_dedupByExternalIdAux _ hinjU [] g
      simpa [specResolveCategory, dedupByExternalId] using h
    rw [hspec]
    simp only [getAllGroupsUnderCategory, getGroupsByCategory, nestedGroupsUnderCategory,
      getGroupsBySubcategory, List.mem_append, List.mem_filter, List.mem_flatMap,
      List.any_eq_true, Bool.and_eq_true, beq_iff_eq]
    constructor
    · rintro (h1 | ⟨hg, s, hs, hsid, hsc⟩)
      · exact Or.inl h1
      · exact Or.inr ⟨s, ⟨hs, hsc⟩, hg, hsid⟩
    · rintro (h1 | ⟨s, ⟨hs, hsc⟩, hg, hsid⟩)
      · exact Or.inl h1
      · exact Or.inr ⟨hg, s, hs, hsid, hsc⟩
  · rw [getAllGroupsUnderCategory, List.map_append, List.nodup_append]
    refine ⟨?_, ?_, ?_⟩
    · exact List.Nodup.sublist (List.Sublist.map _ (List.filter_sublist _)) hkeys
    · exact List.Nodup.sublist (List.Sublist.map _ (List.filter_sublist _)) hkeys
    · intro k hk1 hk2
      obtain ⟨g1, hg1, hkg1⟩ := List.mem_map.mp hk1
      obtain ⟨g2, hg2, hkg2⟩ := List.mem_map.mp hk2
      have hg1' := List.mem_filter.mp hg1
      have hg2' := List.mem_filter.mp hg2
      have heq : g1 = g2 := hinj g1 hg1'.1 g2 hg2'.1 (by rw [hkg1, hkg2])
      subst heq
      have hc1 : g1.category_id = some c := by
        simpa [beq_iff_eq] using hg1'.2
      have hc2 : ∃ s ∈ db.subcategories, g1.subcategory_id = some s.id ∧ s.category_id = c := by
        simpa [List.any_eq_true, Bool.and_eq_true, beq_iff_eq] using hg2'.2
      obtain ⟨s, _, hsid, _⟩ := hc2
      have hx := hxor g1 hg1'.1
      simp [xorFK, hc1, hsid] at hx

/-- Witness for `C5_resolve_category_is_dedup_union` on a small database
with one direct group, one nested group and one unrelated group. -/
theorem C5_resolve_category_is_dedup_union_witness :
    (∀ g ∈ (HierarchyDb.mk [⟨"c1", "Sri Lanka", true⟩] [⟨"s1", "Community", "c1"⟩]
        [⟨"u1", "Direct", some "-1", none, some "c1", none⟩,
         ⟨"u2", "Nested", some "-2", none, none, some "s1"⟩,
         ⟨"u3", "Other", some "-3", none, some "c2", none⟩]).groups, xorFK g = true)
    ∧ ((HierarchyDb.mk [⟨"c1", "Sri Lanka", true⟩] [⟨"s1", "Community", "c1"⟩]
        [⟨"u1", "Direct", some "-1", none, some "c1", none⟩,
         ⟨"u2", "Nested", some "-2", none, none, some "s1"⟩,
         ⟨"u3", "Other", some "-3", none, some "c2", none⟩]).groups.map
          IGroup.group_id).Nodup
    ∧ ((∀ g, g ∈ getAllGroupsUnderCategory
          (HierarchyDb.mk [⟨"c1", "Sri Lanka", true⟩] [⟨"s1", "Community", "c1"⟩]
            [⟨"u1", "Direct", some "-1", none, some "c1", none⟩,
             ⟨"u2", "Nested", some "-2", none, none, some "s1"⟩,
             ⟨"u3", "Other", some "-3", none, some "c2", none⟩]) "c1"
        ↔ g ∈ specResolveCategory
          (HierarchyDb.mk [⟨"c1", "Sri Lanka", true⟩] [⟨"s1", "Community", "c1"⟩]
            [⟨"u1", "Direct", some "-1", none, some "c1", none⟩,
             ⟨"u2", "Nested", some "-2", none, none, some "s1"⟩,
             ⟨"u3", "Other", some "-3", none, some "c2", none⟩]) "c1")
      ∧ ((getAllGroupsUnderCategory
          (HierarchyDb.mk [⟨"c1", "Sri Lanka", true⟩] [⟨"s1", "Community", "c1"⟩]
            [⟨"u1", "Direct", some "-1", none, some "c1", none⟩,
             ⟨"u2", "Nested", some "-2", none, none, some "s1"⟩,
             ⟨"u3", "Other", some "-3", none, some "c2", none⟩]) "c1").map
              IGroup.group_id).Nodup) :=
  ⟨by decide, by decide,
    C5_resolve_category_is_dedup_union
      (HierarchyDb.mk [⟨"c1", "Sri Lanka", true⟩] [⟨"s1", "Community", "c1"⟩]
        [⟨"u1", "Direct", some "-1", none, some "c1", none⟩,
         ⟨"u2", "Nested", some "-2", none, none, some "s1"⟩,
         ⟨"u3", "Other", some "-3", none, some "c2", none⟩]) "c1"
      (by decide) (by decide)⟩
